import Mathlib

/-!
Verification of `torchvision/edgeailite/xvision/datasets/tiscapes_plus.py`
(TexasInstruments/vision): a COCO-style segmentation dataset loader.

We shallowly embed the per-sample pipeline of `TIScapeSegmentation` /
`TIScapeSegmentationPlus`:
category filtering and remapping, polygon-mask merging, the ignore-label
post-processing, the validity filter over image ids, the color
decode/encode helpers, the construction-time assertions and the
JSON-writing side effect.  Arrays are modelled as functions from pixel
positions to `Nat` values; `uint8` arithmetic is made explicit with `% 256`.
External libraries (pycocotools rasterization, the COCO index, PIL image
decoding, the xnn color palette) are treated as parameters: an annotation
carries the abstract per-channel bits its polygons decode to, and the
palette is an abstract function.
-/

/-- A pixel position (row, column). -/
abbrev Pos := Nat × Nat

/-- An annotation record as used by the loader: the COCO category id, the
pixel area, and the result of externally decoding its polygon segmentation
(`coco_mask.decode`): per-channel binary values at each pixel (the channel
list is a singleton when the decoded mask is 2-D, matching
`mask = mask[..., None]`). -/
structure Ann where
  category_id : Nat
  area : Nat
  decoded : Pos → List Bool

/-- `self.categories = range(1, num_classes+1)` from
`TIScapeSegmentation.__init__`. -/
def categories (num_classes : Nat) : List Nat :=
  List.range' 1 num_classes

/-- One instance mask from `_convert_poly_to_mask`:
`mask.any(axis=2)` over the decoded channels, then `.astype(np.uint8)`,
so the value is 1 where any channel bit is set and 0 elsewhere. -/
def convert_poly_to_mask (a : Ann) (p : Pos) : Nat :=
  if (a.decoded p).any id then 1 else 0

/-- `_filter_and_remap_categories` with `remap=True` (the call in
`__getitem__`): keep annotations whose category id is permitted, then set
`obj["category_id"] = self.categories.index(obj["category_id"]) + 1`. -/
def filter_and_remap (cats : List Nat) (anno : List Ann) : List Ann :=
  (anno.filter (fun o => cats.contains o.category_id)).map
    (fun o => { o with category_id := cats.indexOf o.category_id + 1 })

/-- `_convert_polys_to_mask`: when there are annotations, the merged mask
is `(masks * cats).max(axis=0)` where `masks` is the uint8 stack of
instance masks and `cats` the category ids cast to the masks' dtype
(uint8, hence `% 256`); otherwise `np.zeros((h, w), dtype=np.uint8)`.
The commented-out overlap-discard line `target[masks.sum(0) > 1] = 255`
is disabled in the source and hence absent here. -/
def convert_polys_to_mask (anno : List Ann) (p : Pos) : Nat :=
  if anno.isEmpty then 0
  else (anno.map (fun o => convert_poly_to_mask o p * (o.category_id % 256) % 256)).foldr max 0

/-- The post-processing of `TIScapeSegmentationPlus.__getitem__`:
`target[0][target == 0] = 255; target[0][target != 255] -= 1`, where
`target` is the Python list `[arr]`.  The comparisons are list-vs-int, so
they evaluate to the scalar booleans `False` and `True`; numpy indexing
with scalar `False` selects no element and with `True` selects every
element.  Hence the first statement assigns nothing and the second
decrements every pixel, with uint8 wrap-around (`0 - 1 = 255`). -/
def postProcess (t : Pos → Nat) (p : Pos) : Nat :=
  (t p + 255) % 256

/-- The mask half of a `TIScapeSegmentationPlus.__getitem__` sample with
no transforms: filter and remap the annotations, rasterize and merge them,
then apply the ignore-label post-processing. -/
def getitem_target (num_classes : Nat) (anno : List Ann) (p : Pos) : Nat :=
  postProcess (convert_polys_to_mask (filter_and_remap (categories num_classes) anno)) p

/-- `_has_valid_annotation`: false on an empty list, else true iff the
areas sum to more than 1000. -/
def has_valid_anno (anno : List Ann) : Bool :=
  if anno.length = 0 then false
  else decide (1000 < (anno.map Ann.area).sum)

/-- `_remove_images_without_annotations`: keep the image ids whose
annotations (loaded from the COCO index, here the abstract `loadAnns`),
filtered to the permitted categories when `self.categories` is non-empty,
form a valid annotation set. -/
def remove_images_without_anns (cats : List Nat) (loadAnns : Nat → List Ann)
    (img_ids : List Nat) : List Nat :=
  img_ids.filter (fun i =>
    let anno := loadAnns i
    let anno := if cats.isEmpty then anno else anno.filter (fun o => cats.contains o.category_id)
    has_valid_anno anno)

-- Basic facts about the embedded pipeline.

/-- Each instance-mask value is 0 or 1. -/
theorem convert_poly_to_mask_le_one (a : Ann) (p : Pos) :
    convert_poly_to_mask a p ≤ 1 := by
  unfold convert_poly_to_mask
  split <;> simp

/-- Membership in `categories n` is exactly `1 ≤ c ∧ c ≤ n`. -/
theorem mem_categories {c n : Nat} : c ∈ categories n ↔ 1 ≤ c ∧ c ≤ n := by
  unfold categories
  rw [List.mem_range']
  constructor
  · rintro ⟨i, hi, rfl⟩
    omega
  · rintro ⟨h1, h2⟩
    exact ⟨c - 1, by omega, by omega⟩

/-- On `range' s n`, `indexOf` of a member `c` is `c - s`. -/
theorem indexOf_range' (n : Nat) : ∀ s c : Nat, s ≤ c → c < s + n →
    (List.range' s n).indexOf c = c - s := by
  induction n with
  | zero => intro s c h1 h2; omega
  | succ m ih =>
    intro s c h1 h2
    rw [List.range'_succ]
    by_cases hcs : c = s
    · subst hcs
      simp [List.indexOf_cons]
    · rw [List.indexOf_cons_ne _ (by simpa using fun h => hcs h.symm)]
      rw [ih (s+1) c (by omega) (by omega)]
      omega

/-- The category ids produced by `filter_and_remap` over `categories n`
all lie in `{1..n}`. -/
theorem filter_and_remap_cat_mem {n : Nat} {anno : List Ann} {o : Ann}
    (ho : o ∈ filter_and_remap (categories n) anno) :
    1 ≤ o.category_id ∧ o.category_id ≤ n := by
  unfold filter_and_remap at ho
  rcases List.mem_map.mp ho with ⟨o', ho', rfl⟩
  rcases List.mem_filter.mp ho' with ⟨-, hc⟩
  have hmem : o'.category_id ∈ categories n := by
    simpa using hc
  rcases mem_categories.mp hmem with ⟨h1, h2⟩
  have : (categories n).indexOf o'.category_id = o'.category_id - 1 :=
    indexOf_range' n 1 o'.category_id h1 (by omega)
  simp only [this]
  omega

/-- `foldr max 0` bounds every element of a `Nat` list from above. -/
theorem foldr_max_is_ub : ∀ (l : List Nat), ∀ v ∈ l, v ≤ l.foldr max 0 := by
  intro l
  induction l with
  | nil => intro v hv; cases hv
  | cons a l ih =>
    intro v hv
    rcases List.mem_cons.mp hv with rfl | hv
    · exact le_max_left _ _
    · exact le_trans (ih v hv) (le_max_right _ _)

/-- On a non-empty `Nat` list, `foldr max 0` is attained by some element. -/
theorem foldr_max_is_mem : ∀ (l : List Nat), l ≠ [] → l.foldr max 0 ∈ l := by
  intro l
  induction l with
  | nil => intro h; exact absurd rfl h
  | cons a l ih =>
    intro _
    by_cases hl : l = []
    · subst hl
      simp
    · rcases le_total (l.foldr max 0) a with h | h
      · rw [List.foldr_cons, max_eq_left h]
        exact List.mem_cons_self a l
      · rw [List.foldr_cons, max_eq_right h]
        exact List.mem_cons_of_mem a (ih hl)

/-- `foldr max 0` respects a common upper bound. -/
theorem foldr_max_le {c : Nat} : ∀ {l : List Nat}, (∀ v ∈ l, v ≤ c) → l.foldr max 0 ≤ c := by
  intro l
  induction l with
  | nil => intro _; exact Nat.zero_le c
  | cons a l ih =>
    intro h
    rw [List.foldr_cons]
    exact max_le (h a (List.mem_cons_self a l)) (ih fun v hv => h v (List.mem_cons_of_mem a hv))

/-- Every merged-mask value is below 256: it is a maximum of uint8 values. -/
theorem convert_polys_to_mask_lt_256 (anno : List Ann) (p : Pos) :
    convert_polys_to_mask anno p < 256 := by
  unfold convert_polys_to_mask
  split
  · omega
  · have h : (anno.map (fun o => convert_poly_to_mask o p * (o.category_id % 256) % 256)).foldr
        max 0 ≤ 255 := by
      apply foldr_max_le
      intro v hv
      rcases List.mem_map.mp hv with ⟨o, -, rfl⟩
      have := Nat.mod_lt (convert_poly_to_mask o p * (o.category_id % 256)) (by omega : 0 < 256)
      omega
    omega

/-- The post-processing sends 0 to 255 and decrements every other uint8 value:
`(v + 255) % 256` is `255` at `v = 0` and `v - 1` for `1 ≤ v ≤ 255`. -/
theorem postProcess_eq (t : Pos → Nat) (p : Pos) (h : t p < 256) :
    postProcess t p = if t p = 0 then 255 else t p - 1 := by
  unfold postProcess
  by_cases h0 : t p = 0
  · simp [h0]
  · have : t p + 255 = 256 + (t p - 1) := by omega
    rw [if_neg h0, this, Nat.add_mod_left, Nat.mod_eq_of_lt (by omega)]


/-- C1: for a sample fetched via `TIScapeSegmentation.__getitem__`, the merged
mask value at a pixel is the maximum over instances of
(binary mask value × remapped category id): it bounds every instance's
contribution from above and is attained by one of them; and for exactly two
overlapping instances with remapped category ids 2 and 3, the overlapping
pixel resolves to 3. -/
theorem C1_merged_mask_is_max (n : Nat) (anno : List Ann) (p : Pos) :
    (filter_and_remap (categories n) anno ≠ [] →
      (∀ v ∈ (filter_and_remap (categories n) anno).map
          (fun o => convert_poly_to_mask o p * (o.category_id % 256) % 256),
          v ≤ convert_polys_to_mask (filter_and_remap (categories n) anno) p) ∧
      convert_polys_to_mask (filter_and_remap (categories n) anno) p ∈
        (filter_and_remap (categories n) anno).map
          (fun o => convert_poly_to_mask o p * (o.category_id % 256) % 256)) ∧
    (∀ o1 o2, filter_and_remap (categories n) anno = [o1, o2] →
      o1.category_id = 2 → o2.category_id = 3 →
      convert_poly_to_mask o1 p = 1 → convert_poly_to_mask o2 p = 1 →
      convert_polys_to_mask (filter_and_remap (categories n) anno) p = 3) := by
  constructor
  · intro hne
    have hznotempty : (filter_and_remap (categories n) anno).isEmpty = false := by
      simpa [List.isEmpty_iff] using hne
    have hmask : convert_polys_to_mask (filter_and_remap (categories n) anno) p =
        ((filter_and_remap (categories n) anno).map
          (fun o => convert_poly_to_mask o p * (o.category_id % 256) % 256)).foldr max 0 := by
      unfold convert_polys_to_mask
      rw [hznotempty]
      simp
    rw [hmask]
    refine ⟨foldr_max_is_ub _, foldr_max_is_mem _ ?_⟩
    simpa using hne
  · intro o1 o2 heq h1 h2 hm1 hm2
    rw [heq]
    unfold convert_polys_to_mask
    simp [h1, h2, hm1, hm2]

/-- Annotations used in concrete samples: permitted category ids 2 and 3, with
all-ones decoded masks, plus one with the non-permitted id 7. -/
def annCat2 : Ann := ⟨2, 50, fun _ => [true]⟩

def annCat3 : Ann := ⟨3, 60, fun _ => [true]⟩

def annCat7 : Ann := ⟨7, 5, fun _ => [true]⟩

theorem C1_merged_mask_is_max_witness :
    (convert_polys_to_mask (filter_and_remap (categories 4) [annCat2, annCat3]) (0, 0) ∈
      (filter_and_remap (categories 4) [annCat2, annCat3]).map
        (fun o => convert_poly_to_mask o (0, 0) * (o.category_id % 256) % 256)) ∧
    convert_polys_to_mask (filter_and_remap (categories 4) [annCat2, annCat3]) (0, 0) = 3 :=
  ⟨((C1_merged_mask_is_max 4 [annCat2, annCat3] (0, 0)).1 (by simp [filter_and_remap,
      annCat2, annCat3, categories])).2,
    (C1_merged_mask_is_max 4 [annCat2, annCat3] (0, 0)).2
      ⟨2, 50, fun _ => [true]⟩ ⟨3, 60, fun _ => [true]⟩ rfl rfl rfl rfl rfl⟩

/-- C2: in the target returned by `TIScapeSegmentationPlus.__getitem__` with no
transforms, every pixel whose merged mask value is 0 carries the ignore label
255, and every other pixel carries the merged value decremented by 1. -/
theorem C2_ignore_label_shift (n : Nat) (anno : List Ann) (p : Pos) :
    (convert_polys_to_mask (filter_and_remap (categories n) anno) p = 0 →
      getitem_target n anno p = 255) ∧
    (convert_polys_to_mask (filter_and_remap (categories n) anno) p ≠ 0 →
      getitem_target n anno p =
        convert_polys_to_mask (filter_and_remap (categories n) anno) p - 1) := by
  have hlt := convert_polys_to_mask_lt_256 (filter_and_remap (categories n) anno) p
  have heq := postProcess_eq (convert_polys_to_mask (filter_and_remap (categories n) anno)) p hlt
  constructor
  · intro h0
    unfold getitem_target
    rw [heq, if_pos h0]
  · intro h0
    unfold getitem_target
    rw [heq, if_neg h0]

theorem C2_ignore_label_shift_witness :
    getitem_target 4 ([] : List Ann) (0, 0) = 255 ∧
    getitem_target 4 [annCat3] (0, 0) = 2 :=
  ⟨(C2_ignore_label_shift 4 [] (0, 0)).1 rfl,
    (C2_ignore_label_shift 4 [annCat3] (0, 0)).2 (by decide)⟩

/-- C5: the merged mask of a sample only contains values in `{0, 1..n}`, and
the target returned by `TIScapeSegmentationPlus.__getitem__` with no
transforms only contains values in `{255} ∪ {0..n-1}`. -/
theorem C5_value_ranges (n : Nat) (anno : List Ann) (p : Pos) :
    convert_polys_to_mask (filter_and_remap (categories n) anno) p ≤ n ∧
    (getitem_target n anno p = 255 ∨ getitem_target n anno p < n) := by
  have hle : convert_polys_to_mask (filter_and_remap (categories n) anno) p ≤ n := by
    unfold convert_polys_to_mask
    split
    · omega
    · apply foldr_max_le
      intro v hv
      rcases List.mem_map.mp hv with ⟨o, ho, rfl⟩
      rcases filter_and_remap_cat_mem ho with ⟨h1, h2⟩
      have hm := convert_poly_to_mask_le_one o p
      interval_cases h : convert_poly_to_mask o p
      · simp
      · have : o.category_id % 256 ≤ o.category_id := Nat.mod_le _ _
        calc 1 * (o.category_id % 256) % 256 ≤ 1 * (o.category_id % 256) := Nat.mod_le _ _
          _ ≤ n := by omega
  refine ⟨hle, ?_⟩
  have hlt := convert_polys_to_mask_lt_256 (filter_and_remap (categories n) anno) p
  have heq := postProcess_eq (convert_polys_to_mask (filter_and_remap (categories n) anno)) p hlt
  unfold getitem_target
  rw [heq]
  by_cases h0 : convert_polys_to_mask (filter_and_remap (categories n) anno) p = 0
  · left; rw [if_pos h0]
  · right; rw [if_neg h0]; omega

/-- C9: a sample whose filtered annotation list is empty gets the all-zero
merged mask, and `TIScapeSegmentationPlus.__getitem__` then returns a target
that is entirely the ignore label 255. -/
theorem C9_empty_anno_all_ignore (n : Nat) (anno : List Ann) (p : Pos)
    (h : filter_and_remap (categories n) anno = []) :
    convert_polys_to_mask (filter_and_remap (categories n) anno) p = 0 ∧
    getitem_target n anno p = 255 := by
  have h0 : convert_polys_to_mask (filter_and_remap (categories n) anno) p = 0 := by
    rw [h]
    rfl
  refine ⟨h0, ?_⟩
  unfold getitem_target postProcess
  rw [h0]

theorem C9_empty_anno_all_ignore_witness :
    convert_polys_to_mask (filter_and_remap (categories 4) [annCat7]) (0, 0) = 0 ∧
    getitem_target 4 [annCat7] (0, 0) = 255 :=
  C9_empty_anno_all_ignore 4 [annCat7] (0, 0) rfl

/-- The sum of mapped values over a filtered list never exceeds the sum over
the whole list (for `Nat`-valued maps). -/
theorem sum_map_filter_le (f : Ann → Nat) (q : Ann → Bool) :
    ∀ l : List Ann, ((l.filter q).map f).sum ≤ (l.map f).sum := by
  intro l
  induction l with
  | nil => simp
  | cons a l ih =>
    by_cases hq : q a
    · simp only [List.filter_cons, hq, if_pos, List.map_cons, List.sum_cons]
      omega
    · simp only [List.filter_cons, hq, List.map_cons, List.sum_cons]
      simp only [Bool.false_eq_true, if_false]
      omega

/-- `_has_valid_annotation` holds exactly on non-empty lists whose areas sum
to more than 1000. -/
theorem has_valid_anno_iff (anno : List Ann) :
    has_valid_anno anno = true ↔ anno ≠ [] ∧ 1000 < (anno.map Ann.area).sum := by
  rcases anno with _ | ⟨a, l⟩
  · simp [has_valid_anno]
  · simp [has_valid_anno]

/-- C3: `_filter_and_remap_categories` sends each permitted original category
id to its index in the permitted list plus 1, and this remapping is a
bijection from the permitted category id set onto `{1..n}`. -/
theorem C3_remap_is_bijection (n : Nat) (anno : List Ann) :
    ((filter_and_remap (categories n) anno).map Ann.category_id =
      ((anno.map Ann.category_id).filter (fun c => (categories n).contains c)).map
        (fun c => (categories n).indexOf c + 1)) ∧
    Set.BijOn (fun c => (categories n).indexOf c + 1)
      {c | c ∈ categories n} (Set.Icc 1 n) := by
  have hid : ∀ c ∈ categories n, (categories n).indexOf c + 1 = c := by
    intro c hc
    rcases mem_categories.mp hc with ⟨h1, h2⟩
    rw [show (categories n).indexOf c = c - 1 from indexOf_range' n 1 c h1 (by omega)]
    omega
  constructor
  · unfold filter_and_remap
    induction anno with
    | nil => rfl
    | cons a l ih =>
      by_cases hc : (categories n).contains a.category_id
      · simp only [List.filter_cons, hc, if_pos, List.map_cons, ih]
      · simp only [List.filter_cons, hc, List.map_cons, Bool.false_eq_true, if_false, ih]
  · refine ⟨?_, ?_, ?_⟩
    · intro c hc
      rcases mem_categories.mp ((Set.mem_setOf_eq ▸ hc : c ∈ categories n)) with ⟨h1, h2⟩
      have h3 := hid c (Set.mem_setOf_eq ▸ hc)
      simp only [Set.mem_Icc]
      omega
    · intro a ha b hb hab
      have h1 := hid a (Set.mem_setOf_eq ▸ ha)
      have h2 := hid b (Set.mem_setOf_eq ▸ hb)
      rw [← h1, ← h2]
      exact hab
    · intro y hy
      rcases Set.mem_Icc.mp hy with ⟨hy1, hy2⟩
      have hmem : y ∈ categories n := mem_categories.mpr ⟨hy1, hy2⟩
      exact ⟨y, hmem, hid y hmem⟩

/-- C4: an image id is retained by `_remove_images_without_annotations`
exactly when its annotations, filtered to the permitted categories, are
non-empty and their areas sum to strictly more than 1000; consequently an
image whose total annotated area is at most 1000 is excluded. -/
theorem C4_validity_filter (n : Nat) (hn : 0 < n) (loadAnns : Nat → List Ann)
    (img_ids : List Nat) (i : Nat) :
    (i ∈ remove_images_without_anns (categories n) loadAnns img_ids ↔
      i ∈ img_ids ∧
        (loadAnns i).filter (fun o => (categories n).contains o.category_id) ≠ [] ∧
        1000 < (((loadAnns i).filter
          (fun o => (categories n).contains o.category_id)).map Ann.area).sum) ∧
    ((((loadAnns i).map Ann.area).sum ≤ 1000) →
      i ∉ remove_images_without_anns (categories n) loadAnns img_ids) := by
  have hne : (categories n).isEmpty = false := by
    unfold categories
    rcases n with _ | m
    · omega
    · rw [List.range'_succ]
      rfl
  have hiff : i ∈ remove_images_without_anns (categories n) loadAnns img_ids ↔
      i ∈ img_ids ∧
        (loadAnns i).filter (fun o => (categories n).contains o.category_id) ≠ [] ∧
        1000 < (((loadAnns i).filter
          (fun o => (categories n).contains o.category_id)).map Ann.area).sum := by
    unfold remove_images_without_anns
    rw [List.mem_filter]
    simp only [hne, Bool.false_eq_true, if_false]
    rw [has_valid_anno_iff]
  refine ⟨hiff, ?_⟩
  intro hsum hmem
  rcases (hiff.mp hmem) with ⟨-, -, hgt⟩
  have := sum_map_filter_le Ann.area (fun o => (categories n).contains o.category_id) (loadAnns i)
  omega

theorem C4_validity_filter_witness :
    0 ∉ remove_images_without_anns (categories 4) (fun _ => [annCat2]) [0] :=
  (C4_validity_filter 4 (by decide) (fun _ => [annCat2]) [0] 0).2 (by decide)

/-- `self.void_classes = []` from `TIScapeSegmentationPlus.__init__`. -/
def void_classes : List Nat := []

/-- `self.valid_classes = range(1, self.num_classes_+1)`. -/
def valid_classes (num_classes : Nat) : List Nat :=
  List.range' 1 num_classes

/-- `self.class_map = dict(zip(self.valid_classes, range(1, self.num_classes_+1)))`,
as a lookup function (the default branch is never reached at the call
sites, where the key is always a valid class). -/
def class_map (num_classes c : Nat) : Nat :=
  (((valid_classes num_classes).zip (List.range' 1 num_classes)).lookup c).getD c

/-- One color channel of `decode_segmap` at one pixel of value `v`:
`r = temp.copy()` followed by
`for l in range(0, self.num_classes_): r[temp == l] = self.label_colours[l][k]`. -/
def decode_channel (num_classes : Nat) (proj : Nat → Nat) (v : Nat) : Nat :=
  (List.range num_classes).foldl (fun r l => if v = l then proj l else r) v

/-- `decode_segmap` at one pixel: the three channel loops, then
`rgb[:, :, k] = channel / 255.0`; color components as exact rationals.
`label_colours` is the palette dict built in `__init__` from the external
`xnn.utils.get_color_palette`, kept abstract. -/
def decode_segmap (label_colours : Nat → Nat × Nat × Nat) (num_classes : Nat)
    (temp : Pos → Nat) (p : Pos) : ℚ × ℚ × ℚ :=
  ((decode_channel num_classes (fun l => (label_colours l).1) (temp p) : ℚ) / 255,
   (decode_channel num_classes (fun l => (label_colours l).2.1) (temp p) : ℚ) / 255,
   (decode_channel num_classes (fun l => (label_colours l).2.2) (temp p) : ℚ) / 255)

/-- `encode_segmap` at one array element: the loop
`mask[mask == _voidc] = self.ignore_index` over the empty `void_classes`,
then `mask[mask == _validc] = self.class_map[_validc]` over
`valid_classes`.  numpy applies these elementwise to an array of any
shape, so the element may be rational (as when the array is a decoded rgb
image). -/
def encode_val (num_classes : Nat) (x : ℚ) : ℚ :=
  let x1 := void_classes.foldl (fun (y : ℚ) (c : Nat) => if y = (c : ℚ) then (255 : ℚ) else y) x
  (valid_classes num_classes).foldl
    (fun (y : ℚ) (c : Nat) => if y = (c : ℚ) then (class_map num_classes c : ℚ) else y) x1

/-- Looking a key up in the zip of a list with itself returns the key. -/
theorem lookup_zip_self : ∀ (l : List Nat) (c : Nat), ((l.zip l).lookup c).getD c = c := by
  intro l
  induction l with
  | nil => intro c; rfl
  | cons a l ih =>
    intro c
    by_cases hc : c = a
    · subst hc
      simp [List.lookup]
    · have hb : (c == a) = false := beq_eq_false_iff_ne.mpr hc
      simp only [List.zip_cons_cons, List.lookup, hb]
      exact ih c

/-- The class map of `TIScapeSegmentationPlus` is the identity. -/
theorem class_map_self (n c : Nat) : class_map n c = c :=
  lookup_zip_self (valid_classes n) c

/-- `encode_segmap` leaves every element unchanged: there are no void
classes and the class map sends each valid class to itself. -/
theorem encode_val_id (n : Nat) (x : ℚ) : encode_val n x = x := by
  unfold encode_val void_classes
  simp only [List.foldl_nil]
  generalize valid_classes n = l
  induction l generalizing x with
  | nil => rfl
  | cons a l ih =>
    rw [List.foldl_cons]
    by_cases h : x = (a : ℚ)
    · rw [if_pos h, class_map_self n a, ← h]
      exact ih x
    · rw [if_neg h]
      exact ih x

/-- The channel loop assigns the palette entry of an in-range pixel value. -/
theorem decode_channel_lt (proj : Nat → Nat) : ∀ (n v : Nat), v < n →
    decode_channel n proj v = proj v := by
  intro n
  induction n with
  | zero => intro v h; omega
  | succ m ih =>
    intro v h
    unfold decode_channel
    rw [List.range_succ, List.foldl_append, List.foldl_cons, List.foldl_nil]
    by_cases hv : v = m
    · rw [if_pos hv, hv]
    · rw [if_neg hv]
      exact ih v (by omega)

/-- A concrete palette (every class colored (128, 64, 32)) and the
all-class-0 mask used as concrete inputs for the decode/encode claims. -/
def palGray : Nat → Nat × Nat × Nat := fun _ => (128, 64, 32)

def tempZero : Pos → Nat := fun _ => 0

/-- C6, corrected: `encode_segmap` is the identity on every array element
(`void_classes` is empty and `class_map` sends each valid class to
itself), so re-encoding a decoded mask returns the decoded color values
unchanged rather than the class indices; `decode_segmap` itself assigns
each in-range class index its palette color divided by 255. -/
theorem C6_encode_is_identity (num_cl : Nat) (pal : Nat → Nat × Nat × Nat)
    (temp : Pos → Nat) (p : Pos) (x : ℚ) :
    encode_val num_cl x = x ∧
    encode_val num_cl (decode_segmap pal num_cl temp p).1 =
      (decode_segmap pal num_cl temp p).1 ∧
    (temp p < num_cl →
      decode_segmap pal num_cl temp p =
        (((pal (temp p)).1 : ℚ) / 255, ((pal (temp p)).2.1 : ℚ) / 255,
          ((pal (temp p)).2.2 : ℚ) / 255)) := by
  refine ⟨encode_val_id _ _, encode_val_id _ _, ?_⟩
  intro h
  unfold decode_segmap
  rw [decode_channel_lt _ _ _ h, decode_channel_lt _ _ _ h, decode_channel_lt _ _ _ h]

theorem C6_counterexample :
    encode_val 4 (decode_segmap palGray 4 tempZero (0, 0)).1 ≠ ((tempZero (0, 0) : Nat) : ℚ) := by
  have h1 : (decode_segmap palGray 4 tempZero (0, 0)).1 = ((128 : Nat) : ℚ) / 255 := by
    unfold decode_segmap
    rw [decode_channel_lt _ _ _ (show tempZero (0, 0) < 4 by decide)]
    rfl
  rw [encode_val_id, h1]
  show ((128 : Nat) : ℚ) / 255 ≠ ((0 : Nat) : ℚ)
  norm_num

theorem C6_encode_is_identity_witness :
    encode_val 4 ((7 : ℚ) / 3) = (7 : ℚ) / 3 ∧
    decode_segmap palGray 4 tempZero (0, 0) =
      (((palGray (tempZero (0, 0))).1 : ℚ) / 255,
        ((palGray (tempZero (0, 0))).2.1 : ℚ) / 255,
        ((palGray (tempZero (0, 0))).2.2 : ℚ) / 255) :=
  ⟨(C6_encode_is_identity 4 palGray tempZero (0, 0) ((7 : ℚ) / 3)).1,
    (C6_encode_is_identity 4 palGray tempZero (0, 0) ((7 : ℚ) / 3)).2.2 (by decide)⟩

/-- Python `str.startswith`, over the character list of a string. -/
def startswith (pre s : List Char) : Bool :=
  List.isPrefixOf pre s

/-- The branch the split loop of `tiscape_segmentation` takes for one split
name: the `train` branch, the `val` branch, or
`assert False, 'unknown split'`. -/
inductive SplitBranch
  | train
  | val
  | assertUnknownSplit
deriving DecidableEq

/-- The `if split_name.startswith('train') / elif split_name.startswith('val')
/ else: assert False, 'unknown split'` dispatch in `tiscape_segmentation`. -/
def classify_split (split_name : List Char) : SplitBranch :=
  if startswith "train".toList split_name then .train
  else if startswith "val".toList split_name then .val
  else .assertUnknownSplit

/-- `split = ['train', 'val']`, assigned in `tiscape_segmentation` over the
incoming `split` argument before the loop runs. -/
def split_list : List (List Char) :=
  ["train".toList, "val".toList]

/-- `assert 'annotations' in dataset_folders` from
`TIScapeSegmentation.__init__`: the assertion passes iff the root listing
contains the annotations folder. -/
def annotations_ok (dataset_folders : List (List Char)) : Bool :=
  dataset_folders.contains "annotations".toList

theorem C7_counterexample :
    "training".toList ≠ "train".toList ∧ "training".toList ≠ "val".toList ∧
    classify_split "training".toList ≠ SplitBranch.assertUnknownSplit := by
  decide

/-- C7, corrected: the construction assertion on the annotations folder
fails exactly when `annotations` is absent from the root listing; the
split dispatch reaches `assert False` exactly when the split name starts
with neither `train` nor `val` (a prefix test, not equality with the two
recognized values); and `tiscape_segmentation` overrides its split
argument with the fixed list `['train', 'val']`, whose members never
reach the assertion. -/
theorem C7_assertion_conditions (dataset_folders : List (List Char))
    (split_name : List Char) :
    (annotations_ok dataset_folders = false ↔ "annotations".toList ∉ dataset_folders) ∧
    (classify_split split_name = SplitBranch.assertUnknownSplit ↔
      startswith "train".toList split_name = false ∧
      startswith "val".toList split_name = false) ∧
    (∀ s ∈ split_list, classify_split s ≠ SplitBranch.assertUnknownSplit) := by
  refine ⟨?_, ?_, ?_⟩
  · simp [annotations_ok]
  · unfold classify_split
    cases h1 : startswith "train".toList split_name <;>
      cases h2 : startswith "val".toList split_name <;>
        simp
  · intro s hs
    simp only [split_list, List.mem_cons, List.not_mem_nil, or_false] at hs
    rcases hs with rfl | rfl <;> decide

theorem C7_assertion_conditions_witness :
    annotations_ok ["images".toList] = false ∧
    classify_split "test".toList = SplitBranch.assertUnknownSplit ∧
    classify_split "train".toList ≠ SplitBranch.assertUnknownSplit :=
  ⟨(C7_assertion_conditions ["images".toList] "test".toList).1.mpr (by decide),
    (C7_assertion_conditions ["images".toList] "test".toList).2.1.mpr (by decide),
    (C7_assertion_conditions ["images".toList] "test".toList).2.2 "train".toList (by decide)⟩

/-- The state `write_to_jsonfile` sees for its target path: whether
`os.path.isfile` holds, whether `os.access(..., os.R_OK)` holds, and the
file content as the list of chunks appended so far. -/
structure FileState where
  isfile : Bool
  readable : Bool
  content : List String
deriving DecidableEq

/-- `write_to_jsonfile`: when the file exists and is readable, `pass`;
otherwise `open(..., 'a')` (creating the file if needed) followed by
`json.dump(data, fp)` appends the serialized data (serialization kept
abstract as the `data` string). -/
def write_to_jsonfile (fs : FileState) (data : String) : FileState :=
  if fs.isfile && fs.readable then fs
  else { isfile := true, readable := fs.readable, content := fs.content ++ [data] }

/-- C8: `write_to_jsonfile` leaves an existing readable file untouched, and
appends the data (a write occurs) exactly when the file is absent or
unreadable. -/
theorem C8_write_only_if_absent (fs : FileState) (data : String) :
    (fs.isfile = true → fs.readable = true → write_to_jsonfile fs data = fs) ∧
    ((fs.isfile = false ∨ fs.readable = false) →
      (write_to_jsonfile fs data).content = fs.content ++ [data]) := by
  constructor
  · intro h1 h2
    unfold write_to_jsonfile
    rw [h1, h2]
    rfl
  · intro h
    rcases h with h | h <;> simp [write_to_jsonfile, h]

theorem C8_write_only_if_absent_witness :
    write_to_jsonfile ⟨true, true, ["old"]⟩ "new" = ⟨true, true, ["old"]⟩ ∧
    (write_to_jsonfile ⟨false, true, []⟩ "new").content = [] ++ ["new"] :=
  ⟨(C8_write_only_if_absent ⟨true, true, ["old"]⟩ "new").1 rfl rfl,
    (C8_write_only_if_absent ⟨false, true, []⟩ "new").2 (Or.inl rfl)⟩

/-- The shape of a decoded image array in `TIScapeSegmentation.__getitem__`:
the number of dimensions and the channel count `shape[2]` (only read when
`ndim` is not 2, thanks to the short-circuit `or`; for a 2-D array the
field is unused by the conversion). -/
structure ImgShape where
  ndim : Nat
  channels : Nat
deriving DecidableEq

/-- `if image.ndim == 2 or image.shape[2] == 1: image =
cv2.cvtColor(image, cv2.COLOR_GRAY2RGB)`: grayscale inputs become
3-channel; every other image is returned as decoded. -/
def ensure_rgb (img : ImgShape) : ImgShape :=
  if img.ndim = 2 ∨ img.channels = 1 then { ndim := 3, channels := 3 } else img

theorem C10_counterexample :
    ensure_rgb ⟨3, 4⟩ = ⟨3, 4⟩ ∧ (ensure_rgb ⟨3, 4⟩).channels ≠ 3 := by
  decide

/-- C10, corrected: a decoded image that is 2-dimensional or single-channel
is converted to 3-channel RGB, every other image is returned unchanged,
so the returned image has 3 channels exactly when the decoded image was
2-dimensional, single-channel, or already 3-channel. -/
theorem C10_channel_conversion (img : ImgShape) :
    ((img.ndim = 2 ∨ img.channels = 1) → ensure_rgb img = ⟨3, 3⟩) ∧
    (¬(img.ndim = 2 ∨ img.channels = 1) → ensure_rgb img = img) ∧
    ((ensure_rgb img).channels = 3 ↔
      img.ndim = 2 ∨ img.channels = 1 ∨ img.channels = 3) := by
  by_cases h : img.ndim = 2 ∨ img.channels = 1
  · have he : ensure_rgb img = ⟨3, 3⟩ := if_pos h
    refine ⟨fun _ => he, fun hc => absurd h hc, ?_⟩
    rw [he]
    constructor
    · intro _
      tauto
    · intro _
      rfl
  · have he : ensure_rgb img = img := if_neg h
    push_neg at h
    refine ⟨fun hc => absurd hc (by tauto), fun _ => he, ?_⟩
    rw [he]
    constructor
    · intro h3
      exact Or.inr (Or.inr h3)
    · intro h3
      rcases h3 with h3 | h3 | h3
      · exact absurd h3 h.1
      · exact absurd h3 h.2
      · exact h3

theorem C10_channel_conversion_witness :
    ensure_rgb ⟨2, 1⟩ = ⟨3, 3⟩ ∧ ensure_rgb ⟨3, 5⟩ = ⟨3, 5⟩ :=
  ⟨(C10_channel_conversion ⟨2, 1⟩).1 (Or.inl rfl),
    (C10_channel_conversion ⟨3, 5⟩).2.1 (by decide)⟩
